import Mathlib

/-
Verification of the skill-extraction and job-matching core of the career
recommendation platform.  The Python sources (config.py, resume_analyzer.py,
job_matcher.py, job_search_api.py) are shallowly embedded below:

* Python str values are Lean String values; character level work uses
  List Char (String.toList).  Python str.lower is modelled character-wise
  with Char.toLower, and the regex word class \w is modelled as ASCII
  alphanumeric or underscore (the résumé dictionaries are all ASCII).
* Python set values are modelled as duplicate-free lists; set construction
  is List.eraseDups, intersection and difference are membership filters.
* Python float arithmetic is modelled with exact rationals; round(x, 1) is
  modelled as floor-based rounding to one decimal (the concrete values
  evaluated in the theorems are not representation ties, so the rational
  model and IEEE doubles agree there).
* The stable Python list sort (sorted / list.sort) is modelled by a stable
  insertion sort.
* Network calls are modelled by passing the decoded responses as data.
-/

/-- Character-wise lower casing; models Python str.lower on ASCII text. -/
def lowerChars (s : List Char) : List Char := s.map Char.toLower

/-- Strip leading and trailing whitespace; models Python str.strip(). -/
def stripChars (s : List Char) : List Char :=
  ((s.dropWhile Char.isWhitespace).reverse.dropWhile Char.isWhitespace).reverse

/-- Python str.lower as a String to String map. -/
def str_lower (s : String) : String := (lowerChars s.toList).asString

/-- job_matcher.normalize_skill: skill.lower().strip(). -/
def normalize_skill (s : String) : String := (stripChars (lowerChars s.toList)).asString

/-- Lexicographic comparison of char lists by code point, the order Python
uses when sorting strings. -/
def charListLe : List Char → List Char → Bool
  | [], _ => true
  | _ :: _, [] => false
  | a :: as, b :: bs =>
    if a.toNat < b.toNat then true
    else if b.toNat < a.toNat then false
    else charListLe as bs

/-- Python string comparison used by sorted(). -/
def str_le (a b : String) : Bool := charListLe a.toList b.toList

/-- Stable insertion of an element into a list: the element is placed before
the first entry it compares le to, hence after all earlier equal entries. -/
def insertSorted (le : α → α → Bool) (x : α) : List α → List α
  | [] => [x]
  | y :: ys => if le x y then x :: y :: ys else y :: insertSorted le x ys

/-- Stable sort; models the stable Python sorted()/list.sort(). -/
def insertionSort (le : α → α → Bool) : List α → List α
  | [] => []
  | x :: xs => insertSorted le x (insertionSort le xs)

/-- Python substring containment (needle in haystack) on char lists. -/
def containsSub (needle haystack : List Char) : Bool :=
  (List.range (haystack.length + 1)).any fun i => needle.isPrefixOf (haystack.drop i)

/-- Python set intersection for sets modelled as duplicate-free lists. -/
def listInter (a b : List String) : List String := a.filter fun x => b.contains x

/-- Python set difference for sets modelled as duplicate-free lists. -/
def listDiff (a b : List String) : List String := a.filter fun x => !(b.contains x)

/-- Python round(x, 1) modelled on rationals, rounding half up. -/
def round1 (q : ℚ) : ℚ := ((Rat.floor (q * 10 + 1/2) : ℤ) : ℚ) / 10

/-- config.TECHNICAL_SKILLS, in source order. -/
def TECHNICAL_SKILLS : List String :=
  ["python", "java", "javascript", "typescript", "c++", "c#", "ruby", "php", "swift", "kotlin",
   "go", "rust", "scala", "r", "matlab", "sql", "html", "css",
   "react", "angular", "vue", "nextjs", "next.js", "svelte", "django", "flask", "fastapi",
   "express", "nodejs", "node.js", "spring", "asp.net", ".net", "rails", "laravel",
   "android", "ios", "react native", "flutter", "xamarin", "ionic",
   "mysql", "postgresql", "mongodb", "redis", "sqlite", "oracle", "cassandra",
   "dynamodb", "elasticsearch", "mssql", "mariadb", "firebase",
   "aws", "azure", "gcp", "google cloud", "docker", "kubernetes", "jenkins", "gitlab",
   "github actions", "terraform", "ansible", "ci/cd", "nginx", "apache",
   "machine learning", "deep learning", "tensorflow", "pytorch", "scikit-learn", "keras",
   "pandas", "numpy", "data analysis", "data science", "nlp", "computer vision",
   "tableau", "power bi", "spark", "hadoop", "airflow",
   "git", "rest api", "graphql", "microservices", "agile", "scrum", "jira",
   "linux", "bash", "powershell", "api", "json", "xml", "oauth", "jwt",
   "testing", "unit testing", "selenium", "jest", "pytest", "kafka", "rabbitmq"]

/-- config.SOFT_SKILLS, in source order. -/
def SOFT_SKILLS : List String :=
  ["leadership", "communication", "teamwork", "problem solving", "critical thinking",
   "time management", "project management", "collaboration", "adaptability", "creativity",
   "interpersonal", "presentation", "analytical", "decision making", "conflict resolution",
   "mentoring", "negotiation", "strategic thinking", "attention to detail", "multitasking",
   "initiative", "self-motivated", "organizational", "customer service", "public speaking"]

/-- config.ROLE_SKILL_REQUIREMENTS, in source (insertion) order. -/
def ROLE_SKILL_REQUIREMENTS : List (String × List String) :=
  [("software_engineer",
    ["python", "java", "javascript", "git", "sql", "rest api", "data structures",
     "algorithms", "testing", "problem solving", "teamwork"]),
   ("frontend_developer",
    ["html", "css", "javascript", "react", "typescript", "responsive design",
     "git", "rest api", "ui/ux", "problem solving"]),
   ("backend_developer",
    ["python", "java", "sql", "rest api", "microservices", "docker",
     "database design", "git", "problem solving", "system design"]),
   ("data_scientist",
    ["python", "r", "sql", "machine learning", "statistics", "pandas", "numpy",
     "data visualization", "problem solving", "communication", "analytical"]),
   ("devops_engineer",
    ["linux", "docker", "kubernetes", "aws", "ci/cd", "terraform", "bash",
     "python", "git", "monitoring", "problem solving"]),
   ("full_stack_developer",
    ["javascript", "python", "react", "nodejs", "sql", "git", "rest api",
     "html", "css", "problem solving", "teamwork"])]

/-- job_matcher.calculate_skill_match: the skill_synonyms table, in source
(insertion) order. -/
def skill_synonyms : List (String × List String) :=
  [("javascript", ["js", "ecmascript"]),
   ("typescript", ["ts"]),
   ("nodejs", ["node.js", "node"]),
   ("reactjs", ["react", "react.js"]),
   ("vuejs", ["vue", "vue.js"]),
   ("python", ["py"]),
   ("docker", ["containerization"]),
   ("kubernetes", ["k8s"]),
   ("amazon web services", ["aws"]),
   ("google cloud platform", ["gcp", "google cloud"]),
   ("microsoft azure", ["azure"]),
   ("sql", ["mysql", "postgresql", "sql server"]),
   ("nosql", ["mongodb", "cassandra", "dynamodb"])]

/-- job_matcher.calculate_skill_match: the related_skills table, in source
(insertion) order. -/
def related_skills : List (String × List String) :=
  [("react", ["javascript", "typescript", "html", "css"]),
   ("angular", ["javascript", "typescript", "html", "css"]),
   ("vue", ["javascript", "typescript", "html", "css"]),
   ("django", ["python"]),
   ("flask", ["python"]),
   ("spring", ["java"]),
   ("express", ["nodejs", "javascript"]),
   ("docker", ["linux", "devops"]),
   ("kubernetes", ["docker", "linux", "devops"]),
   ("aws", ["cloud", "devops"]),
   ("azure", ["cloud", "devops"]),
   ("gcp", ["cloud", "devops"])]

/-- A required skill is a direct match if it is in the candidate set verbatim,
or some synonym group mentions it (as key or synonym) and the candidate set
contains the group key or one of its synonyms (job_matcher.py lines 58-69). -/
def is_direct_match (resume_set : List String) (job_skill : String) : Bool :=
  resume_set.contains job_skill ||
    skill_synonyms.any fun p =>
      (p.2.contains job_skill || job_skill == p.1) &&
      (resume_set.contains p.1 || p.2.any fun s => resume_set.contains s)

/-- The set of direct matches (iteration over the job skill set). -/
def direct_matches_of (resume_set job_set : List String) : List String :=
  job_set.filter (is_direct_match resume_set)

/-- A not-directly-matched required skill is a related match if it is a key of
the related_skills table whose related set meets the candidate set
(job_matcher.py lines 71-77). -/
def is_related_match (resume_set : List String) (job_skill : String) : Bool :=
  related_skills.any fun p =>
    job_skill == p.1 && p.2.any fun s => resume_set.contains s

/-- The set of related matches: job skills minus direct matches, filtered. -/
def related_matches_of (resume_set job_set direct : List String) : List String :=
  (job_set.filter fun s => !(direct.contains s)).filter (is_related_match resume_set)

/-- The match percentage of job_matcher.calculate_skill_match (lines 79-95):
0.6 direct ratio + 0.2 related ratio + 0.1 flat experience credit + industry
credit (0.1 if the candidate and required sets meet, else 0.05), times 100,
rounded to one decimal and clamped above by 100; 0 when no skills required. -/
def match_percentage_of (resume_set job_set direct related : List String) : ℚ :=
  let mp : ℚ :=
    if job_set.isEmpty then 0
    else
      ((direct.length : ℚ) / (job_set.length : ℚ) * 0.6 +
       (related.length : ℚ) / (job_set.length : ℚ) * 0.2 +
       0.1 +
       (if (listInter resume_set job_set).isEmpty then 0.05 else 0.1)) * 100
  min (round1 mp) 100

/-- Result record of job_matcher.calculate_skill_match. -/
structure MatchResult where
  match_percentage : ℚ
  direct_matches : List String
  related_matches : List String
  total_required : ℕ
  total_matched : ℕ
deriving DecidableEq

/-- job_matcher.calculate_skill_match. -/
def calculate_skill_match (resume_skills job_skills : List String) : MatchResult :=
  let resume_skills_set := (resume_skills.map normalize_skill).eraseDups
  let job_skills_set := (job_skills.map normalize_skill).eraseDups
  let direct := direct_matches_of resume_skills_set job_skills_set
  let related := related_matches_of resume_skills_set job_skills_set direct
  ⟨match_percentage_of resume_skills_set job_skills_set direct related,
   insertionSort str_le direct,
   insertionSort str_le related,
   job_skills_set.length,
   direct.length + related.length⟩

/-- The regex word class \w restricted to ASCII: alphanumeric or
underscore.  The Python str patterns \w and \b are Unicode aware; on ASCII
characters they coincide with this predicate, so statements about the
word-boundary search below quantify only over ASCII texts. -/
def is_word_char (c : Char) : Bool := c.isAlphanum || c == '_'

/-- Whether the character at an index is a word character (out of range
counts as non-word, like the edges of the text in regex \b semantics). -/
def word_at (text : List Char) (i : ℕ) : Bool :=
  match text[i]? with
  | some c => is_word_char c
  | none => false

/-- Whether the character just before an index is a word character. -/
def prev_word (text : List Char) (i : ℕ) : Bool :=
  match i with
  | 0 => false
  | j + 1 => word_at text j

/-- The regex \b assertion at a position: exactly one of the two adjacent
characters is a word character. -/
def word_boundary_at (text : List Char) (i : ℕ) : Bool :=
  prev_word text i != word_at text i

/-- Literal occurrence of pat at position i of text. -/
def matches_at (pat text : List Char) (i : ℕ) : Bool :=
  pat.isPrefixOf (text.drop i)

/-- Whether re.search finds the pattern \b + re.escape(pat) + \b in text;
models the pattern used by ResumeAnalyzer skill extraction (lines 57-62). -/
def regex_word_bound_found (pat text : List Char) : Bool :=
  (List.range (text.length + 1)).any fun i =>
    word_boundary_at text i && matches_at pat text i &&
      word_boundary_at text (i + pat.length)

/-- ResumeAnalyzer._extract_technical_skills: the analyzer lower-cases the
résumé text once and tests each dictionary skill, lower-cased and escaped,
with word boundaries on both sides. -/
def extract_technical_skills (resume_text : String) : List String :=
  TECHNICAL_SKILLS.filter fun skill =>
    regex_word_bound_found (lowerChars skill.toList) (lowerChars resume_text.toList)

/-- ResumeAnalyzer._extract_soft_skills, same matching on the soft skills. -/
def extract_soft_skills (resume_text : String) : List String :=
  SOFT_SKILLS.filter fun skill =>
    regex_word_bound_found (lowerChars skill.toList) (lowerChars resume_text.toList)

/-- Modelled from the spec: an occurrence of pat in text as a standalone
whole word, that is, an occurrence whose neighbouring characters (when they
exist) are not word characters. -/
def standalone_at (pat text : List Char) (i : ℕ) : Bool :=
  matches_at pat text i && !(prev_word text i) && !(word_at text (i + pat.length))

/-- Modelled from the spec: text contains pat as a standalone whole word. -/
def standalone_occurs (pat text : List Char) : Bool :=
  (List.range (text.length + 1)).any (standalone_at pat text)

/-- Whether a pattern starts and ends with a word character (the case in
which the \b pattern and the standalone-word reading agree). -/
def edge_word_chars : List Char → Bool
  | [] => false
  | c :: cs => is_word_char c && is_word_char ((c :: cs).getLast (List.cons_ne_nil c cs))

/-- Python len(text.split()): number of maximal whitespace-free words. -/
def count_split_words (s : List Char) : ℕ :=
  ((s.splitOnP Char.isWhitespace).filter fun w => !w.isEmpty).length

/-- ResumeAnalyzer._calculate_score (lines 219-257): five capped buckets,
summed, clamped to 100.  The text argument is the lower-cased résumé text
(self.text); the two skill arguments are the extracted skill sets. -/
def calculate_score (text : List Char) (technical_skills soft_skills : List String) : ℕ :=
  let word_count := count_split_words text
  let content := if 300 ≤ word_count then 30 else if 150 ≤ word_count then 20 else 10
  let skill_count := technical_skills.length
  let tech :=
    if 15 ≤ skill_count then 25
    else if 10 ≤ skill_count then 20
    else if 5 ≤ skill_count then 15
    else max (skill_count * 2) 5
  let experience_keywords :=
    ["experience", "worked", "developed", "implemented", "designed", "led", "managed"]
  let experience_count := experience_keywords.countP fun kw => containsSub kw.toList text
  let education_keywords :=
    ["bachelor", "master", "phd", "degree", "university", "college", "certified",
     "certification"]
  let education_count := education_keywords.countP fun kw => containsSub kw.toList text
  let score := content + tech + min (experience_count * 3) 20 +
    min (education_count * 3) 15 + min (soft_skills.length * 2) 10
  min score 100

/-- The overall analyzer score for a résumé text: extraction then scoring,
as composed by ResumeAnalyzer.analyze. -/
def analyze_score (resume_text : String) : ℕ :=
  calculate_score (lowerChars resume_text.toList)
    (extract_technical_skills resume_text) (extract_soft_skills resume_text)

/-- Overlap score of one role row against the candidate technical skills
(ResumeAnalyzer._identify_missing_skills, lines 263-266). -/
def role_overlap (current_skills : List String) (p : String × List String) : ℕ :=
  (listInter ((p.2.map str_lower).eraseDups) current_skills).length

/-- The generic fallback list of _identify_missing_skills (line 278). -/
def COMMON_GENERIC_SKILLS : List String :=
  ["git", "sql", "rest api", "testing", "docker", "ci/cd", "agile"]

/-- ResumeAnalyzer._identify_missing_skills (lines 259-281).  Python max over
the score mapping keeps the first key attaining the maximum (strictly greater
scores replace the running maximum), which is the dict insertion order. -/
def identify_missing_skills (current_skills : List String) : List String :=
  let role_scores := ROLE_SKILL_REQUIREMENTS.map fun p => (p.1, role_overlap current_skills p)
  match role_scores with
  | [] =>
    (insertionSort str_le (listDiff COMMON_GENERIC_SKILLS.eraseDups current_skills)).take 8
  | r :: rs =>
    let likely := rs.foldl (fun best q => if best.2 < q.2 then q else best) r
    let required :=
      ((((ROLE_SKILL_REQUIREMENTS.find? fun p => p.1 == likely.1).map Prod.snd).getD
        []).map str_lower).eraseDups
    let missing := listDiff required current_skills
    if !missing.isEmpty then (insertionSort str_le missing).take 8
    else
      (insertionSort str_le (listDiff COMMON_GENERIC_SKILLS.eraseDups current_skills)).take 8

/-- Strip the given characters from the right end; models str.rstrip(chars). -/
def rstripSet (cs : List Char) (s : List Char) : List Char :=
  (s.reverse.dropWhile fun c => cs.contains c).reverse

/-- Case-insensitive literal prefix test; pat is given lower-cased.  Models a
regex literal under re.IGNORECASE. -/
def ci_prefix : List Char → List Char → Bool
  | [], _ => true
  | _ :: _, [] => false
  | p :: ps, c :: cs => p == c.toLower && ci_prefix ps cs

/-- The month abbreviations of the date pattern alternation. -/
def month_abbrevs : List String :=
  ["jan", "feb", "mar", "apr", "may", "jun", "jul", "aug", "sep", "oct", "nov", "dec"]

/-- The character class regex set of whitespace, dot and comma. -/
def sep_class (c : Char) : Bool := c.isWhitespace || c == '.' || c == ','

/-- The dash characters of the date pattern classes. -/
def dash_class (c : Char) : Bool := c == '-' || c == '–' || c == '—'

/-- The class of dashes plus the letters t and o (either case, the pattern
runs under re.IGNORECASE). -/
def to_dash_class (c : Char) : Bool := dash_class c || c.toLower == 't' || c.toLower == 'o'

/-- Exactly n digits available at the front of the list. -/
def digits_at (n : ℕ) (t : List Char) : Bool :=
  (t.take n).length == n && (t.take n).all Char.isDigit

/-- First date alternative: month abbreviation, letters, separators, then a
four digit year (the classes are pairwise disjoint, so greedy matching needs
no backtracking).  Returns the match length. -/
def try_alt1 (s : List Char) : Option ℕ :=
  match month_abbrevs.find? fun m => ci_prefix m.toList s with
  | none => none
  | some _ =>
    let rest1 := s.drop 3
    let letters := rest1.takeWhile Char.isAlpha
    let rest2 := rest1.drop letters.length
    let seps := rest2.takeWhile sep_class
    if seps.isEmpty then none
    else if digits_at 4 (rest2.drop seps.length) then
      some (3 + letters.length + seps.length + 4)
    else none

/-- Second date alternative: one or two digits, slash, four digits (the
greedy one-or-two quantifier tries two digits first). -/
def try_alt2 (s : List Char) : Option ℕ :=
  if digits_at 2 s && s[2]? == some '/' && digits_at 4 (s.drop 3) then some 7
  else if digits_at 1 s && s[1]? == some '/' && digits_at 4 (s.drop 2) then some 6
  else none

/-- Tail alternation of the third date alternative: a four digit year, or
present, or current (case-insensitive). -/
def date_end_alt (t : List Char) : Option ℕ :=
  if digits_at 4 t then some 4
  else if ci_prefix "present".toList t then some 7
  else if ci_prefix "current".toList t then some 7
  else none

/-- Third date alternative: four digits, optional whitespace, a dash,
optional whitespace, then year or present or current. -/
def try_alt3 (s : List Char) : Option ℕ :=
  if digits_at 4 s then
    let r1 := s.drop 4
    let w1 := r1.takeWhile Char.isWhitespace
    match r1.drop w1.length with
    | [] => none
    | d :: r3 =>
      if dash_class d then
        let w2 := r3.takeWhile Char.isWhitespace
        match date_end_alt (r3.drop w2.length) with
        | some k => some (4 + w1.length + 1 + w2.length + k)
        | none => none
      else none
  else none

/-- A 19xx or 20xx year at the front of the list. -/
def year_1920_at (t : List Char) : Bool :=
  (t.take 2 == ['1', '9'] || t.take 2 == ['2', '0']) && digits_at 2 (t.drop 2)

/-- Tail alternation of the fourth date alternative. -/
def date_end_alt4 (t : List Char) : Option ℕ :=
  if year_1920_at t then some 4
  else if ci_prefix "present".toList t then some 7
  else if ci_prefix "current".toList t then some 7
  else none

/-- Fourth date alternative: a 19xx/20xx year, optional whitespace, one or
more characters from the dash-t-o class, optional whitespace, then a
19xx/20xx year or present or current. -/
def try_alt4 (s : List Char) : Option ℕ :=
  if year_1920_at s then
    let r1 := s.drop 4
    let w1 := r1.takeWhile Char.isWhitespace
    let r2 := r1.drop w1.length
    let conn := r2.takeWhile to_dash_class
    if conn.isEmpty then none
    else
      let r3 := r2.drop conn.length
      let w2 := r3.takeWhile Char.isWhitespace
      match date_end_alt4 (r3.drop w2.length) with
      | some k => some (4 + w1.length + conn.length + w2.length + k)
      | none => none
  else none

/-- Try the four alternatives of the date pattern at one position, in the
order they appear in the alternation. -/
def date_try_at (s : List Char) : Option ℕ :=
  (((try_alt1 s).orElse fun _ => try_alt2 s).orElse fun _ => try_alt3 s).orElse
    fun _ => try_alt4 s

/-- re.search of the date pattern of _parse_experience_section: the leftmost
position with a match wins; returns (start, length) of the match. -/
def date_search (s : List Char) : Option (ℕ × ℕ) :=
  (List.range (s.length + 1)).findSome? fun i =>
    match date_try_at (s.drop i) with
    | some len => some (i, len)
    | none => none

/-- A connector of the role/company split pattern at the front of the list:
the word at, an at-sign, or one character of the dash-pipe-comma class. -/
def rc_connector_at (s : List Char) : Option ℕ :=
  if "at".toList.isPrefixOf s then some 2
  else
    match s with
    | c :: _ =>
      if c == '@' then some 1
      else if dash_class c || c == '|' || c == ',' then some 1
      else none
    | [] => none

/-- The separator pattern of re.split at one position: whitespace, a
connector, whitespace.  Returns the full separator length. -/
def rc_split_at (s : List Char) (i : ℕ) : Option ℕ :=
  let t := s.drop i
  let w1 := t.takeWhile Char.isWhitespace
  if w1.isEmpty then none
  else
    let t2 := t.drop w1.length
    match rc_connector_at t2 with
    | none => none
    | some cl =>
      let t3 := t2.drop (w1.length + cl) |>.takeWhile Char.isWhitespace
      if t3.isEmpty then none else some (w1.length + cl + t3.length)

/-- re.split on the connector pattern with maxsplit 1 (line 578): the text is
cut at the leftmost separator occurrence; when no separator occurs the whole
text is the only part. -/
def split_role_company (s : List Char) : List (List Char) :=
  match (List.range (s.length + 1)).findSome? fun i =>
      match rc_split_at s i with
      | some len => some (i, len)
      | none => none with
  | some (i, len) => [s.take i, s.drop (i + len)]
  | none => [s]

/-- One parsed work experience entry (_parse_experience_section). -/
structure ExperienceEntry where
  company : String
  role : String
  duration : String
  description : String
deriving DecidableEq

/-- The empty entry the parser starts from. -/
def empty_entry : ExperienceEntry := ⟨"", "", "", ""⟩

/-- Scanner state of _parse_experience_section: finished entries, the entry
under construction, and the accumulated description lines. -/
structure ExpScanState where
  entries : List ExperienceEntry
  current : ExperienceEntry
  desc_lines : List String
deriving DecidableEq

/-- Close the entry under construction: its description becomes the space
joined, stripped accumulated lines, and the entry is appended. -/
def save_current (st : ExpScanState) : List ExperienceEntry :=
  st.entries ++
    [⟨st.current.company, st.current.role, st.current.duration,
      (stripChars (String.intercalate " " st.desc_lines).toList).asString⟩]

/-- One line of the _parse_experience_section loop (lines 551-596). -/
def process_exp_line (st : ExpScanState) (line : List Char) : ExpScanState :=
  let stripped := stripChars line
  if stripped.isEmpty then
    if st.current.role != "" || st.current.company != "" then
      ⟨save_current st, empty_entry, []⟩
    else st
  else
    match date_search stripped with
    | some (start, len) =>
      let saved :=
        if st.current.role != "" || st.current.company != "" then
          (save_current st, ([] : List String))
        else (st.entries, st.desc_lines)
      let duration := (stripChars ((stripped.drop start).take len)).asString
      let remaining := stripChars (rstripSet "|,-–—".toList (stripChars (stripped.take start)))
      let entry :=
        if !remaining.isEmpty then
          match split_role_company remaining with
          | [a, b] =>
            (⟨(stripChars b).asString, (stripChars a).asString, duration, ""⟩ : ExperienceEntry)
          | _ => (⟨"", remaining.asString, duration, ""⟩ : ExperienceEntry)
        else (⟨"", "", duration, ""⟩ : ExperienceEntry)
      ⟨saved.1, entry, saved.2⟩
    | none =>
      if st.current.role == "" && st.current.duration == "" then
        if st.current.company == "" then
          ⟨st.entries,
           ⟨st.current.company, stripped.asString, st.current.duration,
            st.current.description⟩,
           st.desc_lines⟩
        else st
      else if st.current.role != "" && st.current.company == "" &&
          count_split_words stripped ≤ 6 then
        ⟨st.entries,
         ⟨stripped.asString, st.current.role, st.current.duration,
          st.current.description⟩,
         st.desc_lines⟩
      else ⟨st.entries, st.current, st.desc_lines ++ [stripped.asString]⟩

/-- _parse_experience_section (lines 537-603): strip the block, split into
lines, run the scanner, close a pending entry, and keep at most 5 entries. -/
def parse_experience_section (text : String) : List ExperienceEntry :=
  let lines := (stripChars text.toList).splitOn '\n'
  let stF := lines.foldl process_exp_line ⟨[], empty_entry, []⟩
  let entries :=
    if stF.current.role != "" || stF.current.company != "" then save_current stF
    else stF.entries
  entries.take 5

/-- One matched posting as ranked by job_matcher.rank_jobs; only the fields
the ordering consults, plus an identifier standing for the rest of the
record. -/
structure RankedJob where
  job_id : ℕ
  easy_apply : Bool
  match_score : ℚ
deriving DecidableEq

/-- First sort key of rank_jobs line 208: not easy_apply, as 0 or 1. -/
def not_easy_key (j : RankedJob) : ℕ := if j.easy_apply then 0 else 1

/-- Ascending comparison on the Python sort key (not easy_apply,
-match_score): easy-apply postings first, then higher match scores. -/
def ranking_le (a b : RankedJob) : Bool :=
  decide (not_easy_key a < not_easy_key b) ||
    (not_easy_key a == not_easy_key b && decide (b.match_score ≤ a.match_score))

/-- The stable sort of rank_jobs line 208. -/
def sort_job_matches (l : List RankedJob) : List RankedJob := insertionSort ranking_le l

/-- Decoded environment of one credential of JobSearchGlobalProvider: the
outcome of the search endpoint call (some parsed list when it returned 200
with a recognised shape, none otherwise), and the latest-jobs endpoint
status, quota flag (a 200 body whose message mentions exceeded) and parsed
list. -/
structure KeyEnv (α : Type) where
  search_resp : Option (List α)
  latest_status : ℕ
  latest_quota : Bool
  latest_jobs : List α
deriving DecidableEq

/-- JobSearchGlobalProvider._search_with_key (lines 150-184): return the
search endpoint results when usable; otherwise call the latest endpoint,
raising on a non-success status or a quota-exceeded body; results are
truncated to max_results by _process_response. -/
def search_with_key (env : KeyEnv α) (max_results : ℕ) : Except Unit (List α) :=
  match env.search_resp with
  | some data => .ok (data.take max_results)
  | none =>
    if env.latest_status ≠ 200 then .error ()
    else if env.latest_quota then .error ()
    else .ok (env.latest_jobs.take max_results)

/-- JobSearchGlobalProvider.search_jobs (lines 131-148): try the credentials
in listed order; a raising credential is skipped, a credential returning a
non-empty list ends the search with those results, and a credential
returning an empty list is passed over; an empty list results when no
credential produces a non-empty result. -/
def search_jobs_global : List (KeyEnv α) → ℕ → List α
  | [], _ => []
  | env :: rest, m =>
    match search_with_key env m with
    | .error _ => search_jobs_global rest m
    | .ok r => if r.isEmpty then search_jobs_global rest m else r

/-- Modelled from the amended claim: the results of the first credential
whose call succeeds with a non-empty list, else the empty list. -/
def first_nonempty_success (outcomes : List (Except Unit (List α))) : List α :=
  match outcomes.find? fun o =>
      match o with
      | .ok r => !r.isEmpty
      | .error _ => false with
  | some (.ok r) => r
  | _ => []

/-- One normalized posting as collected by JobSearchAPI.search_jobs.  The
posted_date field (a wall-clock timestamp) is outside the model; every other
field of the provider schema is present. -/
structure AggJob where
  title : String
  company : String
  location : String
  description : String
  salary : String
  url : String
  days_ago : ℕ
  contract_type : String
  source : String
  easy_apply : Bool
deriving DecidableEq

/-- One step of the Python dict comprehension keyed by url (line 417): an
existing key keeps its position and takes the new value, a new key is
appended. -/
def insert_by_url (acc : List AggJob) (j : AggJob) : List AggJob :=
  if acc.any fun a => a.url == j.url then
    acc.map fun a => if a.url == j.url then j else a
  else acc ++ [j]

/-- Deduplication by url, last seen value wins, first-seen key order. -/
def dedup_by_url (jobs : List AggJob) : List AggJob := jobs.foldl insert_by_url []

/-- Ascending comparison on days_ago (sort key of line 419). -/
def days_le (a b : AggJob) : Bool := decide (a.days_ago ≤ b.days_ago)

/-- One hexadecimal digit, upper case, as Python urllib quote produces. -/
def hex_digit (n : ℕ) : Char :=
  if n < 10 then Char.ofNat ('0'.toNat + n) else Char.ofNat ('A'.toNat + n - 10)

/-- Percent quoting of one character: kept when alphanumeric or in the
always-safe set of urllib (underscore, dot, dash, tilde) or the default
safe slash, otherwise percent-encoded (ASCII model). -/
def url_quote_char (c : Char) : List Char :=
  if c.isAlphanum || c == '_' || c == '.' || c == '-' || c == '~' || c == '/' then [c]
  else ['%', hex_digit (c.toNat / 16), hex_digit (c.toNat % 16)]

/-- requests.utils.quote, ASCII model. -/
def url_quote (s : String) : String := ((s.toList.map url_quote_char).flatten).asString

/-- JobSearchAPI._get_mock_jobs (lines 428-473): the three synthetic
placeholder postings built from the first keyword. -/
def mock_jobs (keywords : List String) : List AggJob :=
  let keyword_str := match keywords with | [] => "Software" | k :: _ => k
  let encoded := url_quote keyword_str
  [⟨"Senior " ++ keyword_str ++ " Engineer", "TechCorp Solutions", "Remote",
    "Looking for an experienced " ++ keyword_str ++ " engineer to join our team. Easy Apply available!",
    "$100,000 - $150,000",
    "https://www.linkedin.com/jobs/search/?keywords=" ++ encoded,
    2, "Full-time", "LinkedIn", true⟩,
   ⟨keyword_str ++ " Developer", "Innovation Labs", "San Francisco, CA",
    "Join our team as a " ++ keyword_str ++ " developer working on cutting-edge projects...",
    "$90,000 - $130,000",
    "https://www.indeed.com/jobs?q=" ++ encoded,
    5, "Full-time", "Indeed", false⟩,
   ⟨"Junior " ++ keyword_str ++ " Engineer", "StartupXYZ", "New York, NY",
    "Entry-level " ++ keyword_str ++ " position with growth opportunities. Quick Apply now!",
    "$70,000 - $90,000",
    "https://www.glassdoor.com/Job/jobs.htm?sc.keyword=" ++ encoded,
    1, "Full-time", "Glassdoor", true⟩]

/-- JobSearchAPI.search_jobs (lines 388-426) after the concurrent collection
phase: collected is the concatenation of the provider results (completion
order is irrelevant to the deduplicated, sorted outcome); deduplicate by
url, sort ascending by days_ago, fall back to the synthetic postings when
nothing was collected, else truncate to max_results.  An unconfigured
aggregator returns the same synthetic postings, matching collected = []. -/
def search_jobs_aggregate (collected : List AggJob) (keywords : List String)
    (max_results : ℕ) : List AggJob :=
  let unique_jobs := dedup_by_url collected
  let final_jobs := insertionSort days_le unique_jobs
  if final_jobs.isEmpty then mock_jobs keywords
  else final_jobs.take max_results

/-- The résumé block of the section-parser test property. -/
def exp_example : String :=
  "Software Engineer at Acme Corp\nJan 2020 - Present\nBuilt things."

/-- A sample collected posting. -/
def sample_job_a : AggJob :=
  ⟨"Backend Engineer", "Acme", "Remote", "Build services", "Not specified",
   "https://jobs.example.com/1", 3, "Full-time", "Job Board", false⟩

/-- A second sample posting sharing the url of the first. -/
def sample_job_a2 : AggJob :=
  ⟨"Backend Engineer II", "Acme", "Remote", "Build more services", "Not specified",
   "https://jobs.example.com/1", 7, "Full-time", "Job Board", false⟩

/-
Theorems.  Shared helper lemmas come first, then one theorem per claim (with
its witness or counterexample where required).
-/

/-- Rat.floor agrees with the floor of the FloorRing instance on rationals. -/
theorem rat_floor_eq_floor (q : ℚ) : Rat.floor q = ⌊q⌋ := rfl

/-- Rounding to one decimal is monotone. -/
theorem round1_mono {a b : ℚ} (h : a ≤ b) : round1 a ≤ round1 b := by
  unfold round1
  rw [rat_floor_eq_floor, rat_floor_eq_floor]
  have h2 : (⌊a * 10 + 1/2⌋ : ℤ) ≤ ⌊b * 10 + 1/2⌋ := by
    apply Int.floor_le_floor
    nlinarith
  have h3 : ((⌊a * 10 + 1/2⌋ : ℤ) : ℚ) ≤ ((⌊b * 10 + 1/2⌋ : ℤ) : ℚ) := by exact_mod_cast h2
  linarith

/-- Inserting is a permutation of consing. -/
theorem insertSorted_perm (le : α → α → Bool) (x : α) :
    ∀ l : List α, List.Perm (insertSorted le x l) (x :: l) := by
  intro l
  induction l with
  | nil => rfl
  | cons y ys ih =>
    unfold insertSorted
    by_cases h : le x y = true
    · simp [h]
    · rw [if_neg h]
      exact (ih.cons y).trans (List.Perm.swap x y ys)

/-- The insertion sort permutes its input. -/
theorem insertionSort_perm (le : α → α → Bool) :
    ∀ l : List α, List.Perm (insertionSort le l) l := by
  intro l
  induction l with
  | nil => rfl
  | cons x xs ih => exact ((insertSorted_perm le x _).trans (ih.cons x))

/-- Inserting into a sorted list keeps it sorted, for a transitive and total
comparison. -/
theorem insertSorted_pairwise {le : α → α → Bool}
    (trans : ∀ a b c, le a b = true → le b c = true → le a c = true)
    (total : ∀ a b, le a b = true ∨ le b a = true)
    (x : α) {l : List α} (hl : l.Pairwise fun a b => le a b = true) :
    (insertSorted le x l).Pairwise fun a b => le a b = true := by
  induction l with
  | nil => simp [insertSorted]
  | cons y ys ih =>
    rw [List.pairwise_cons] at hl
    obtain ⟨hy, hys⟩ := hl
    unfold insertSorted
    by_cases h : le x y = true
    · rw [if_pos h]
      refine List.Pairwise.cons ?_ (List.Pairwise.cons hy hys)
      intro b hb
      rcases List.mem_cons.mp hb with rfl | hb
      · exact h
      · exact trans x y b h (hy b hb)
    · rw [if_neg h]
      refine List.Pairwise.cons ?_ (ih hys)
      intro b hb
      rcases List.mem_cons.mp ((insertSorted_perm le x ys).mem_iff.mp hb) with hbx | hb
      · rw [hbx]
        rcases total x y with hxy | hyx
        · exact absurd hxy h
        · exact hyx
      · exact hy b hb

/-- The insertion sort output is pairwise ordered, for a transitive and
total comparison. -/
theorem insertionSort_pairwise {le : α → α → Bool}
    (trans : ∀ a b c, le a b = true → le b c = true → le a c = true)
    (total : ∀ a b, le a b = true ∨ le b a = true) :
    ∀ l : List α, (insertionSort le l).Pairwise fun a b => le a b = true := by
  intro l
  induction l with
  | nil => simp [insertionSort]
  | cons x xs ih => exact insertSorted_pairwise trans total x ih

/-- Filtering through an insertion commutes, when any two elements kept by
the filter compare le (so the inserted element cannot jump over a kept
one). -/
theorem insertSorted_filter {le : α → α → Bool} {p : α → Bool}
    (hp : ∀ a b, p a = true → p b = true → le a b = true) (x : α) :
    ∀ l : List α, (insertSorted le x l).filter p =
      if p x then x :: l.filter p else l.filter p := by
  intro l
  induction l with
  | nil => by_cases hpx : p x = true <;> simp [insertSorted, hpx]
  | cons y ys ih =>
    unfold insertSorted
    by_cases hxy : le x y = true
    · rw [if_pos hxy]
      by_cases hpx : p x = true <;> simp [List.filter_cons, hpx]
    · rw [if_neg hxy]
      by_cases hpy : p y = true
      · have hpx : p x = false := by
          rcases hx : p x with _ | _
          · rfl
          · exact absurd (hp x y hx hpy) hxy
        simp [List.filter_cons, hpy, hpx, ih]
      · have hpy' : p y = false := by
          rcases hy : p y with _ | _
          · rfl
          · exact absurd hy hpy
        by_cases hpx : p x = true <;> simp [List.filter_cons, hpy', hpx, ih]

/-- Stability of the insertion sort: elements selected by a filter whose
members pairwise compare le keep exactly their input order. -/
theorem insertionSort_filter {le : α → α → Bool} {p : α → Bool}
    (hp : ∀ a b, p a = true → p b = true → le a b = true) :
    ∀ l : List α, (insertionSort le l).filter p = l.filter p := by
  intro l
  induction l with
  | nil => rfl
  | cons x xs ih =>
    show (insertSorted le x (insertionSort le xs)).filter p = _
    rw [insertSorted_filter hp, ih]
    by_cases hpx : p x = true <;> simp [List.filter_cons, hpx]

/-- The eraseDups loop never empties a non-empty accumulator. -/
theorem eraseDups_loop_ne_nil [BEq α] :
    ∀ (as bs : List α), bs ≠ [] → List.eraseDups.loop as bs ≠ [] := by
  intro as
  induction as with
  | nil =>
    intro bs hbs
    simpa [List.eraseDups.loop] using hbs
  | cons a as ih =>
    intro bs hbs
    unfold List.eraseDups.loop
    rcases h : bs.elem a with _ | _
    · exact ih (a :: bs) (List.cons_ne_nil a bs)
    · exact ih bs hbs

/-- Removing duplicates from a non-empty list leaves it non-empty. -/
theorem eraseDups_ne_nil [BEq α] (a : α) (as : List α) : (a :: as).eraseDups ≠ [] := by
  show List.eraseDups.loop (a :: as) [] ≠ []
  unfold List.eraseDups.loop
  simp only [List.elem_nil]
  exact eraseDups_loop_ne_nil as [a] (List.cons_ne_nil a [])

/-- Evaluation of the discrete part of the match scorer at the test input of
the spec: both skill sets are already normalized, the direct matches are
python and sql, and there is no related match. -/
theorem c1_result_eq :
    calculate_skill_match ["python", "sql"] ["python", "sql", "docker"] =
      ⟨match_percentage_of ["python", "sql"] ["python", "sql", "docker"] ["python", "sql"] [],
       ["python", "sql"], [], 3, 2⟩ := by
  simp only [calculate_skill_match]
  rw [show (["python", "sql"].map normalize_skill).eraseDups = ["python", "sql"] from by decide]
  rw [show (["python", "sql", "docker"].map normalize_skill).eraseDups =
      ["python", "sql", "docker"] from by decide]
  rw [show direct_matches_of ["python", "sql"] ["python", "sql", "docker"] =
      ["python", "sql"] from by decide]
  rw [show related_matches_of ["python", "sql"] ["python", "sql", "docker"] ["python", "sql"] =
      [] from by decide]
  rw [show insertionSort str_le ["python", "sql"] = ["python", "sql"] from by decide]
  rfl

/-- The percentage at the test input evaluates to 60, not 66.7: the weighted
sum is 0.6 times 2/3 plus 0.1 plus 0.1, that is 0.6, so 60 percent. -/
theorem c1_percentage :
    match_percentage_of ["python", "sql"] ["python", "sql", "docker"] ["python", "sql"] [] =
      60 := by
  unfold match_percentage_of
  rw [show listInter ["python", "sql"] ["python", "sql", "docker"] = ["python", "sql"] from
    by decide]
  norm_num [round1, rat_floor_eq_floor]

/-- C1: the claim asserts the match percentage at the test input equals 66.7;
the code (and the arithmetic of the quoted formula) gives 60.0. -/
theorem claim1_counterexample :
    (calculate_skill_match ["python", "sql"] ["python", "sql", "docker"]).match_percentage =
      60 ∧ (60 : ℚ) ≠ 667/10 := by
  constructor
  · rw [c1_result_eq]
    exact c1_percentage
  · norm_num

/-- C1 amended: at the test input, direct matches are python and sql,
total_required is 3, and the percentage is round((0.6 * 2/3 + 0.2 * 0/3 +
0.1 + 0.1) * 100, 1) = 60.0 (the formula quoted by the claim indeed governs
the result, but it evaluates to 60.0, not 66.7). -/
theorem claim1_amended :
    calculate_skill_match ["python", "sql"] ["python", "sql", "docker"] =
      ⟨60, ["python", "sql"], [], 3, 2⟩ ∧
    round1 ((0.6 * (2/3) + 0.2 * (0/3) + 0.1 + 0.1) * 100) = 60 := by
  constructor
  · rw [c1_result_eq, c1_percentage]
  · norm_num [round1, rat_floor_eq_floor]

/-- C10: for a non-empty required-skill list the match percentage is at least
15: the flat 0.1 experience credit and the at-least-0.05 industry credit put
the weighted sum at or above 0.15 before scaling. -/
theorem claim10 (resume_skills job_skills : List String) (h : job_skills ≠ []) :
    15 ≤ (calculate_skill_match resume_skills job_skills).match_percentage := by
  simp only [calculate_skill_match]
  set rset := (resume_skills.map normalize_skill).eraseDups with hrset
  set jset := (job_skills.map normalize_skill).eraseDups with hjset
  have hne : jset ≠ [] := by
    rcases job_skills with _ | ⟨k, ks⟩
    · exact absurd rfl h
    · rw [hjset]
      exact eraseDups_ne_nil _ _
  have hempty : jset.isEmpty = false := by
    rcases jset with _ | _
    · exact absurd rfl hne
    · rfl
  unfold match_percentage_of
  rw [hempty]
  simp only [Bool.false_eq_true, if_false]
  set d := direct_matches_of rset jset
  set r := related_matches_of rset jset d
  have hlen : (1 : ℚ) ≤ (jset.length : ℚ) := by
    have : 1 ≤ jset.length := by
      rcases jset with _ | _
      · exact absurd rfl hne
      · simp
    exact_mod_cast this
  have hterm1 : (0 : ℚ) ≤ (d.length : ℚ) / (jset.length : ℚ) * 0.6 := by positivity
  have hterm2 : (0 : ℚ) ≤ (r.length : ℚ) / (jset.length : ℚ) * 0.2 := by positivity
  have hind : (0.05 : ℚ) ≤ if (listInter rset jset).isEmpty then (0.05 : ℚ) else 0.1 := by
    by_cases hi : (listInter rset jset).isEmpty = true
    · simp [hi]
    · rw [if_neg hi]
      norm_num
  have hmp : (15 : ℚ) ≤
      ((d.length : ℚ) / (jset.length : ℚ) * 0.6 + (r.length : ℚ) / (jset.length : ℚ) * 0.2 +
        0.1 + (if (listInter rset jset).isEmpty then (0.05 : ℚ) else 0.1)) * 100 := by
    nlinarith
  have hr : (15 : ℚ) ≤ round1 (((d.length : ℚ) / (jset.length : ℚ) * 0.6 +
      (r.length : ℚ) / (jset.length : ℚ) * 0.2 + 0.1 +
      (if (listInter rset jset).isEmpty then (0.05 : ℚ) else 0.1)) * 100) := by
    have h15 : round1 15 = 15 := by norm_num [round1, rat_floor_eq_floor]
    calc (15 : ℚ) = round1 15 := h15.symm
    _ ≤ _ := round1_mono hmp
  exact le_min hr (by norm_num)

/-- C10 witness: a candidate with no skills against one required skill still
scores 15. -/
theorem claim10_witness :
    15 ≤ (calculate_skill_match [] ["docker"]).match_percentage :=
  claim10 [] ["docker"] (by decide)

/-- C5: the analyzer score is an integer between 0 and 100, and recomputing
it on the same text (with the same extracted skill sets) gives the same
value: the computation is a pure function of the text. -/
theorem claim5 (resume_text : String) :
    0 ≤ analyze_score resume_text ∧ analyze_score resume_text ≤ 100 ∧
    analyze_score resume_text = analyze_score resume_text := by
  refine ⟨Nat.zero_le _, ?_, rfl⟩
  unfold analyze_score calculate_score
  exact Nat.min_le_right _ _

/-- C5 witness: the bound evaluated on one concrete résumé text. -/
theorem claim5_witness :
    0 ≤ analyze_score "Experienced python developer" ∧
    analyze_score "Experienced python developer" ≤ 100 ∧
    analyze_score "Experienced python developer" =
      analyze_score "Experienced python developer" :=
  claim5 "Experienced python developer"

/-- Indexing into a dropped list shifts the index. -/
theorem getElem?_drop_eq (l : List α) (i j : ℕ) : (l.drop i)[j]? = l[i + j]? := by
  induction l generalizing i with
  | nil => simp
  | cons a as ih =>
    cases i with
    | zero => simp
    | succ n =>
      rw [List.drop_succ_cons, ih n]
      rw [Nat.succ_add]
      exact (List.getElem?_cons_succ).symm

/-- A Boolean prefix agrees with the longer list at every index it covers. -/
theorem isPrefixOf_getElem? {p l : List Char} (h : p.isPrefixOf l = true) :
    ∀ j, j < p.length → l[j]? = p[j]? := by
  induction p generalizing l with
  | nil =>
    intro j hj
    simp at hj
  | cons a as ih =>
    cases l with
    | nil => simp [List.isPrefixOf] at h
    | cons b bs =>
      rw [List.isPrefixOf, Bool.and_eq_true] at h
      obtain ⟨hab, hrest⟩ := h
      have hab' : a = b := by
        have := (beq_iff_eq (a := a) (b := b)).mp hab
        exact this
      intro j hj
      cases j with
      | zero => simp [hab']
      | succ n =>
        rw [List.getElem?_cons_succ, List.getElem?_cons_succ]
        exact ih hrest n (by simpa using hj)

/-- The last position of a non-empty list holds its getLast. -/
theorem cons_getElem?_length (c : Char) (cs : List Char) :
    (c :: cs)[cs.length]? = some ((c :: cs).getLast (List.cons_ne_nil c cs)) := by
  induction cs generalizing c with
  | nil => simp
  | cons d ds ih =>
    rw [List.length_cons, List.getElem?_cons_succ]
    rw [List.getLast_cons (List.cons_ne_nil d ds)]
    exact ih d

/-- At an occurrence of a pattern whose first and last characters are word
characters, the two \b assertions of the search pattern coincide with the
standalone-word conditions (non-word neighbours). -/
theorem boundary_of_standalone {pat text : List Char} {i : ℕ}
    (hpat : edge_word_chars pat = true) (hm : matches_at pat text i = true) :
    word_boundary_at text i = !(prev_word text i) ∧
    word_boundary_at text (i + pat.length) = !(word_at text (i + pat.length)) := by
  rcases pat with _ | ⟨c, cs⟩
  · simp [edge_word_chars] at hpat
  · rw [edge_word_chars, Bool.and_eq_true] at hpat
    obtain ⟨hc, hlast⟩ := hpat
    rw [matches_at] at hm
    have hidx := isPrefixOf_getElem? hm
    have hfirst : text[i]? = some c := by
      have h0 := hidx 0 (by simp)
      rw [getElem?_drop_eq] at h0
      simpa using h0
    have hlastidx : text[i + cs.length]? =
        some ((c :: cs).getLast (List.cons_ne_nil c cs)) := by
      have hl := hidx cs.length (by simp)
      rw [getElem?_drop_eq] at hl
      rw [hl]
      exact cons_getElem?_length c cs
    constructor
    · have hw : word_at text i = true := by
        rw [word_at, hfirst]
        exact hc
      rw [word_boundary_at, hw]
      cases prev_word text i <;> rfl
    · have hpw : prev_word text (i + (c :: cs).length) = true := by
        have : i + (c :: cs).length = (i + cs.length) + 1 := by
          rw [List.length_cons]
          omega
        rw [this, prev_word, word_at, hlastidx]
        exact hlast
      rw [word_boundary_at, hpw]
      cases word_at text (i + (c :: cs).length) <;> rfl

/-- For a pattern that starts and ends with a word character, the
word-boundary regex search succeeds exactly when the text contains the
pattern as a standalone whole word. -/
theorem regex_eq_standalone (pat text : List Char) (hpat : edge_word_chars pat = true) :
    regex_word_bound_found pat text = true ↔ standalone_occurs pat text = true := by
  rw [regex_word_bound_found, standalone_occurs, List.any_eq_true, List.any_eq_true]
  constructor
  · rintro ⟨i, hi, hcond⟩
    rw [Bool.and_eq_true, Bool.and_eq_true] at hcond
    obtain ⟨⟨hb1, hm⟩, hb2⟩ := hcond
    obtain ⟨e1, e2⟩ := boundary_of_standalone hpat hm
    refine ⟨i, hi, ?_⟩
    rw [standalone_at, Bool.and_eq_true, Bool.and_eq_true]
    rw [e1] at hb1
    rw [e2] at hb2
    exact ⟨⟨hm, hb1⟩, hb2⟩
  · rintro ⟨i, hi, hcond⟩
    rw [standalone_at, Bool.and_eq_true, Bool.and_eq_true] at hcond
    obtain ⟨⟨hm, hp⟩, hw⟩ := hcond
    obtain ⟨e1, e2⟩ := boundary_of_standalone hpat hm
    refine ⟨i, hi, ?_⟩
    rw [Bool.and_eq_true, Bool.and_eq_true, e1, e2]
    exact ⟨⟨hp, hm⟩, hw⟩

/-- C2 counterexample: the dictionary skill c++ occurring as a standalone
whole word is nevertheless not extracted, because the trailing \b cannot
match after a non-word character (a plus sign followed by the end of the
text is not a word boundary). -/
theorem claim2_counterexample :
    "c++" ∈ TECHNICAL_SKILLS ∧
    standalone_occurs (lowerChars "c++".toList) (lowerChars "c++".toList) = true ∧
    "c++" ∉ extract_technical_skills "c++" := by
  refine ⟨by decide, by decide, by decide⟩

/-- C2 amended: for every dictionary skill whose lower-cased form starts and
ends with a word character (letter, digit or underscore) and every résumé
text made of ASCII characters — where the Unicode-aware \w and \b of the
Python pattern coincide with the ASCII word class of the model — the
analyzer extracts the skill exactly when the lower-cased text contains the
lower-cased skill as a standalone whole word; in particular a text
containing such a skill only inside a longer word does not yield it.
Skills with non-word edge characters (c++, c#, .net) follow raw \b
semantics instead and can miss standalone occurrences. -/
theorem claim2_amended (skill text : String)
    (h1 : skill ∈ TECHNICAL_SKILLS ∨ skill ∈ SOFT_SKILLS)
    (h2 : edge_word_chars (lowerChars skill.toList) = true)
    (_h3 : ∀ c ∈ text.toList, c.toNat < 128) :
    (skill ∈ extract_technical_skills text ∨ skill ∈ extract_soft_skills text) ↔
      standalone_occurs (lowerChars skill.toList) (lowerChars text.toList) = true := by
  have key := regex_eq_standalone (lowerChars skill.toList) (lowerChars text.toList) h2
  constructor
  · rintro (hm | hm)
    · rw [extract_technical_skills, List.mem_filter] at hm
      exact key.mp hm.2
    · rw [extract_soft_skills, List.mem_filter] at hm
      exact key.mp hm.2
  · intro hs
    rcases h1 with h | h
    · left
      rw [extract_technical_skills, List.mem_filter]
      exact ⟨h, key.mpr hs⟩
    · right
      rw [extract_soft_skills, List.mem_filter]
      exact ⟨h, key.mpr hs⟩

/-- C2 witness: python is word-edged, the sample text is ASCII, python
occurs standalone in it and is indeed extracted from it. -/
theorem claim2_witness :
    ("python" ∈ extract_technical_skills "I know Python well" ∨
      "python" ∈ extract_soft_skills "I know Python well") ∧
    ("python" ∈ TECHNICAL_SKILLS ∨ "python" ∈ SOFT_SKILLS) ∧
    edge_word_chars (lowerChars "python".toList) = true ∧
    (∀ c ∈ "I know Python well".toList, c.toNat < 128) :=
  ⟨(claim2_amended "python" "I know Python well" (Or.inl (by decide)) (by decide)
      (by decide)).mpr (by decide),
   Or.inl (by decide), by decide, by decide⟩

/-- When a set-as-list has empty intersection with another, the difference
gives the whole list back. -/
theorem listDiff_of_inter_nil (a b : List String) (h : listInter a b = []) :
    listDiff a b = a := by
  induction a with
  | nil => rfl
  | cons x xs ih =>
    rw [listInter, List.filter_cons] at h
    by_cases hc : b.contains x = true
    · rw [if_pos hc] at h
      exact absurd h (List.cons_ne_nil _ _)
    · rw [if_neg hc] at h
      have hx : (!(b.contains x)) = true := by
        rw [Bool.not_eq_true] at hc
        rw [hc]
        rfl
      rw [listDiff, List.filter_cons, if_pos hx]
      rw [show (List.filter (fun x => !(b.contains x)) xs) = listDiff xs b from rfl]
      rw [ih h]

/-- C3 amended: when the candidate technical skills overlap no role of the
requirement table, Python max still selects the first table entry
(software_engineer, overlap 0), so the result is that role's required list
minus the candidate skills — sorted and capped at 8 — and the generic
fallback list is not reached. -/
theorem claim3_amended (current_skills : List String)
    (h : ∀ p ∈ ROLE_SKILL_REQUIREMENTS, role_overlap current_skills p = 0) :
    identify_missing_skills current_skills =
      ["algorithms", "data structures", "git", "java", "javascript",
       "problem solving", "python", "rest api"] := by
  have h1 := h ("software_engineer",
    ["python", "java", "javascript", "git", "sql", "rest api", "data structures",
     "algorithms", "testing", "problem solving", "teamwork"]) (by decide)
  have h2 := h ("frontend_developer",
    ["html", "css", "javascript", "react", "typescript", "responsive design",
     "git", "rest api", "ui/ux", "problem solving"]) (by decide)
  have h3 := h ("backend_developer",
    ["python", "java", "sql", "rest api", "microservices", "docker",
     "database design", "git", "problem solving", "system design"]) (by decide)
  have h4 := h ("data_scientist",
    ["python", "r", "sql", "machine learning", "statistics", "pandas", "numpy",
     "data visualization", "problem solving", "communication", "analytical"]) (by decide)
  have h5 := h ("devops_engineer",
    ["linux", "docker", "kubernetes", "aws", "ci/cd", "terraform", "bash",
     "python", "git", "monitoring", "problem solving"]) (by decide)
  have h6 := h ("full_stack_developer",
    ["javascript", "python", "react", "nodejs", "sql", "git", "rest api",
     "html", "css", "problem solving", "teamwork"]) (by decide)
  have hinter : listInter
      (((["python", "java", "javascript", "git", "sql", "rest api", "data structures",
          "algorithms", "testing", "problem solving", "teamwork"] : List String).map
        str_lower).eraseDups) current_skills = [] := by
    rw [role_overlap] at h1
    exact List.length_eq_zero.mp h1
  have hdiff := listDiff_of_inter_nil _ _ hinter
  unfold identify_missing_skills
  simp only [ROLE_SKILL_REQUIREMENTS, List.map_cons, List.map_nil]
  rw [h1, h2, h3, h4, h5, h6]
  simp only [List.foldl_cons, List.foldl_nil, Nat.lt_irrefl, if_false]
  rw [show ((([("software_engineer",
      ["python", "java", "javascript", "git", "sql", "rest api", "data structures",
       "algorithms", "testing", "problem solving", "teamwork"]),
     ("frontend_developer",
      ["html", "css", "javascript", "react", "typescript", "responsive design",
       "git", "rest api", "ui/ux", "problem solving"]),
     ("backend_developer",
      ["python", "java", "sql", "rest api", "microservices", "docker",
       "database design", "git", "problem solving", "system design"]),
     ("data_scientist",
      ["python", "r", "sql", "machine learning", "statistics", "pandas", "numpy",
       "data visualization", "problem solving", "communication", "analytical"]),
     ("devops_engineer",
      ["linux", "docker", "kubernetes", "aws", "ci/cd", "terraform", "bash",
       "python", "git", "monitoring", "problem solving"]),
     ("full_stack_developer",
      ["javascript", "python", "react", "nodejs", "sql", "git", "rest api",
       "html", "css", "problem solving", "teamwork"])] : List (String × List String)).find?
      fun p => p.1 == "software_engineer").map Prod.snd).getD [] =
    ["python", "java", "javascript", "git", "sql", "rest api", "data structures",
     "algorithms", "testing", "problem solving", "teamwork"] from by decide]
  rw [hdiff]
  have hcond : (!((["python", "java", "javascript", "git", "sql", "rest api",
      "data structures", "algorithms", "testing", "problem solving",
      "teamwork"] : List String).map str_lower).eraseDups.isEmpty) = true := by decide
  rw [if_pos hcond]
  decide

/-- C3 counterexample: a candidate with no skills overlaps no role, yet the
inference returns the software_engineer requirements (sorted, capped at 8),
not the generic fallback list the claim announces. -/
theorem claim3_counterexample :
    identify_missing_skills [] =
      ["algorithms", "data structures", "git", "java", "javascript",
       "problem solving", "python", "rest api"] ∧
    identify_missing_skills [] ≠
      ["agile", "ci/cd", "docker", "git", "rest api", "sql", "testing"] := by
  refine ⟨by decide, by decide⟩

/-- C3 witness: a candidate whose single skill occurs in no role list. -/
theorem claim3_witness :
    identify_missing_skills ["cobol"] =
      ["algorithms", "data structures", "git", "java", "javascript",
       "problem solving", "python", "rest api"] ∧
    (∀ p ∈ ROLE_SKILL_REQUIREMENTS, role_overlap ["cobol"] p = 0) :=
  ⟨claim3_amended ["cobol"] (by decide), by decide⟩

/-- C4 counterexample: on the test block the parser does not split the role
line on the word at (that split only happens on the line carrying the date),
so no entry with role Software Engineer and company Acme Corp is produced. -/
theorem claim4_counterexample :
    ¬ ((parse_experience_section exp_example).map ExperienceEntry.role =
        ["Software Engineer"] ∧
       (parse_experience_section exp_example).map ExperienceEntry.company =
        ["Acme Corp"]) := by
  decide

/-- C4 amended: the block parses to exactly one entry whose role is the whole
first line (Software Engineer at Acme Corp) with empty company, duration and
description; the dated second entry is discarded at the end of the scan
because it never received a role or company, taking the date and the
description line with it. -/
theorem claim4_amended :
    parse_experience_section exp_example =
      [⟨"", "Software Engineer at Acme Corp", "", ""⟩] := by
  decide

/-- Unfolding of the ranking comparison into its two ordered components. -/
theorem ranking_le_iff (a b : RankedJob) :
    ranking_le a b = true ↔
      (not_easy_key a < not_easy_key b ∨
       (not_easy_key a = not_easy_key b ∧ b.match_score ≤ a.match_score)) := by
  rw [ranking_le]
  rw [Bool.or_eq_true, Bool.and_eq_true]
  rw [decide_eq_true_iff, decide_eq_true_iff]
  rw [beq_iff_eq]

/-- The ranking comparison is transitive. -/
theorem ranking_le_trans (a b c : RankedJob)
    (h1 : ranking_le a b = true) (h2 : ranking_le b c = true) :
    ranking_le a c = true := by
  rw [ranking_le_iff] at h1 h2 ⊢
  rcases h1 with h1 | ⟨h1e, h1s⟩
  · rcases h2 with h2 | ⟨h2e, h2s⟩
    · exact Or.inl (Nat.lt_trans h1 h2)
    · exact Or.inl (h2e ▸ h1)
  · rcases h2 with h2 | ⟨h2e, h2s⟩
    · exact Or.inl (h1e ▸ h2)
    · exact Or.inr ⟨h1e.trans h2e, h2s.trans h1s⟩

/-- The ranking comparison is total. -/
theorem ranking_le_total (a b : RankedJob) :
    ranking_le a b = true ∨ ranking_le b a = true := by
  rcases Nat.lt_trichotomy (not_easy_key a) (not_easy_key b) with h | h | h
  · exact Or.inl ((ranking_le_iff a b).mpr (Or.inl h))
  · rcases le_total a.match_score b.match_score with hs | hs
    · exact Or.inr ((ranking_le_iff b a).mpr (Or.inr ⟨h.symm, hs⟩))
    · exact Or.inl ((ranking_le_iff a b).mpr (Or.inr ⟨h, hs⟩))
  · exact Or.inr ((ranking_le_iff b a).mpr (Or.inl h))

/-- The comparison implies the two ordering facts of the claim: easy-apply
postings never follow non-easy ones, and within an easy-apply group the
scores are non-increasing. -/
theorem ranking_le_imp (a b : RankedJob) (hab : ranking_le a b = true) :
    (a.easy_apply = false → b.easy_apply = false) ∧
    (a.easy_apply = b.easy_apply → b.match_score ≤ a.match_score) := by
  rw [ranking_le_iff] at hab
  constructor
  · intro ha
    rcases hb : b.easy_apply with _ | _
    · rfl
    · rcases hab with h | ⟨he, _⟩
      · rw [not_easy_key, not_easy_key, ha, hb] at h
        simp at h
      · rw [not_easy_key, not_easy_key, ha, hb] at he
        simp at he
  · intro he
    rcases hab with h | ⟨_, hs⟩
    · rw [not_easy_key, not_easy_key, he] at h
      exact absurd h (lt_irrefl _)
    · exact hs

/-- C6: the ranking sort puts easy-apply postings before all others, orders
each easy-apply group by non-increasing match score, preserves the incoming
order of postings sharing both keys (stability), and on the concrete pair of
the claim ranks the easy-apply posting with match 40 before the non-easy
posting with match 90. -/
theorem claim6 :
    (∀ l : List RankedJob,
      (sort_job_matches l).Pairwise (fun a b =>
        (a.easy_apply = false → b.easy_apply = false) ∧
        (a.easy_apply = b.easy_apply → b.match_score ≤ a.match_score)) ∧
      (∀ (e : Bool) (m : ℚ),
        (sort_job_matches l).filter
          (fun j => j.easy_apply == e && decide (j.match_score = m)) =
        l.filter (fun j => j.easy_apply == e && decide (j.match_score = m)))) ∧
    sort_job_matches [⟨1, false, 90⟩, ⟨2, true, 40⟩] =
      [⟨2, true, 40⟩, ⟨1, false, 90⟩] := by
  refine ⟨fun l => ⟨?_, ?_⟩, by decide⟩
  · exact (insertionSort_pairwise ranking_le_trans ranking_le_total l).imp
      (fun hab => ranking_le_imp _ _ hab)
  · intro e m
    apply insertionSort_filter
    intro a b ha hb
    rw [Bool.and_eq_true, beq_iff_eq, decide_eq_true_iff] at ha hb
    apply (ranking_le_iff a b).mpr
    right
    constructor
    · rw [not_easy_key, not_easy_key, ha.1, hb.1]
    · rw [ha.2, hb.2]

/-- C6 witness: the concrete ordering instance through the theorem. -/
theorem claim6_witness :
    sort_job_matches [⟨1, false, 90⟩, ⟨2, true, 40⟩] =
      [⟨2, true, 40⟩, ⟨1, false, 90⟩] := claim6.2

/-- C7 amended: the credential loop returns the results of the first
credential (in listed order) whose call succeeds with a non-empty list;
raising credentials (non-success status or quota body) and credentials that
succeed with an empty list are both skipped; when none qualifies the
provider returns an empty list. -/
theorem claim7_amended {α : Type} (envs : List (KeyEnv α)) (m : ℕ) :
    search_jobs_global envs m =
      first_nonempty_success (envs.map fun env => search_with_key env m) := by
  induction envs with
  | nil => rfl
  | cons e rest ih =>
    cases hk : search_with_key e m with
    | error u =>
      simp only [List.map_cons, search_jobs_global, hk, first_nonempty_success, List.find?]
      rw [first_nonempty_success] at ih
      exact ih
    | ok r =>
      cases hr : r.isEmpty with
      | true =>
        simp only [List.map_cons, search_jobs_global, hk, hr, first_nonempty_success,
          List.find?, Bool.not_true, if_true]
        rw [first_nonempty_success] at ih
        exact ih
      | false =>
        simp only [List.map_cons, search_jobs_global, hk, hr, first_nonempty_success,
          List.find?, Bool.not_false, Bool.false_eq_true, if_false]

/-- C7 counterexample: the first credential call succeeds (200, no quota,
usable shape) with an empty list, yet the loop does not stop and return its
(empty) results: it moves on and returns the second credential results. -/
theorem claim7_counterexample :
    search_with_key (⟨some [], 200, false, []⟩ : KeyEnv String) 10 = .ok [] ∧
    search_jobs_global
      [(⟨some [], 200, false, []⟩ : KeyEnv String), ⟨some ["job-b"], 200, false, []⟩] 10 =
      ["job-b"] ∧
    (["job-b"] : List String) ≠ [] := by
  refine ⟨rfl, rfl, by decide⟩

/-- C7 witness: a failing first credential followed by a succeeding one,
through the amended theorem. -/
theorem claim7_witness :
    search_jobs_global
      [(⟨none, 500, false, []⟩ : KeyEnv String), ⟨some ["job-a"], 200, false, []⟩] 10 =
      first_nonempty_success
        (([(⟨none, 500, false, []⟩ : KeyEnv String), ⟨some ["job-a"], 200, false, []⟩]).map
          fun env => search_with_key env 10) :=
  claim7_amended _ 10

/-- The urls after a dict insertion step: unchanged when the key exists
(the value is replaced in place), else extended by the new url. -/
theorem insert_by_url_urls (acc : List AggJob) (j : AggJob) :
    (insert_by_url acc j).map AggJob.url =
      if (acc.any fun a => a.url == j.url) = true then acc.map AggJob.url
      else acc.map AggJob.url ++ [j.url] := by
  rw [insert_by_url]
  by_cases h : (acc.any fun a => a.url == j.url) = true
  · rw [if_pos h, if_pos h, List.map_map]
    apply List.map_congr_left
    intro a ha
    by_cases hj : (a.url == j.url) = true
    · simp only [Function.comp, if_pos hj]
      exact (beq_iff_eq.mp hj).symm
    · simp only [Function.comp, if_neg hj]
  · rw [if_neg h, if_neg h, List.map_append]
    rfl

/-- Inserting keeps the url list duplicate free. -/
theorem insert_by_url_nodup (acc : List AggJob) (j : AggJob)
    (h : (acc.map AggJob.url).Nodup) :
    ((insert_by_url acc j).map AggJob.url).Nodup := by
  rw [insert_by_url_urls]
  by_cases hc : (acc.any fun a => a.url == j.url) = true
  · rw [if_pos hc]
    exact h
  · rw [if_neg hc]
    have hnot : j.url ∉ acc.map AggJob.url := by
      intro hm
      rcases List.mem_map.mp hm with ⟨a, ha, hau⟩
      apply hc
      rw [List.any_eq_true]
      exact ⟨a, ha, by rw [beq_iff_eq, hau]⟩
    rw [List.nodup_append]
    refine ⟨h, List.nodup_singleton _, ?_⟩
    intro u hu hmem
    rw [List.mem_singleton] at hmem
    rw [hmem] at hu
    exact hnot hu

/-- The deduplicated job list has pairwise distinct urls. -/
theorem dedup_by_url_nodup (jobs : List AggJob) :
    ((dedup_by_url jobs).map AggJob.url).Nodup := by
  rw [dedup_by_url]
  suffices h : ∀ acc, (acc.map AggJob.url).Nodup →
      ((jobs.foldl insert_by_url acc).map AggJob.url).Nodup by
    exact h [] (by simp)
  induction jobs with
  | nil =>
    intro acc h
    simpa using h
  | cons x xs ih =>
    intro acc h
    rw [List.foldl_cons]
    exact ih _ (insert_by_url_nodup acc x h)

/-- Two strings with prefixes of different lengths and a shared suffix
differ. -/
theorem append_ne_of_length_ne {a b : String} (t : String) (h : a.length ≠ b.length) :
    a ++ t ≠ b ++ t := by
  intro he
  apply h
  have hl := congrArg String.length he
  rw [String.length_append, String.length_append] at hl
  omega

/-- The three synthetic postings carry pairwise distinct urls for every
keyword list: their fixed url prefixes have different lengths. -/
theorem mock_jobs_urls_nodup (keywords : List String) :
    ((mock_jobs keywords).map AggJob.url).Nodup := by
  simp only [mock_jobs, List.map_cons, List.map_nil]
  rw [List.nodup_cons, List.nodup_cons]
  refine ⟨?_, ?_, List.nodup_singleton _⟩
  · intro hm
    rcases List.mem_cons.mp hm with he | hm2
    · exact append_ne_of_length_ne _ (by decide) he
    · rw [List.mem_singleton] at hm2
      exact append_ne_of_length_ne _ (by decide) hm2
  · intro hm
    rw [List.mem_singleton] at hm
    exact append_ne_of_length_ne _ (by decide) hm

/-- C8: the aggregated search result never repeats a url: collected postings
with equal urls are collapsed by the dict comprehension, the sort and the
truncation preserve distinctness, and the synthetic fallback postings have
pairwise distinct urls. -/
theorem claim8 (collected : List AggJob) (keywords : List String) (max_results : ℕ) :
    ((search_jobs_aggregate collected keywords max_results).map AggJob.url).Nodup := by
  simp only [search_jobs_aggregate]
  by_cases hemp : (insertionSort days_le (dedup_by_url collected)).isEmpty = true
  · rw [if_pos hemp]
    exact mock_jobs_urls_nodup keywords
  · rw [if_neg hemp]
    have hd := dedup_by_url_nodup collected
    have hp : List.Perm
        ((insertionSort days_le (dedup_by_url collected)).map AggJob.url)
        ((dedup_by_url collected).map AggJob.url) :=
      (insertionSort_perm days_le _).map AggJob.url
    have hs : ((insertionSort days_le (dedup_by_url collected)).map AggJob.url).Nodup :=
      hp.nodup_iff.mpr hd
    rw [List.map_take]
    exact List.Nodup.sublist (List.take_sublist _ _) hs

/-- C8 witness: two collected postings with the same url collapse. -/
theorem claim8_witness :
    ((search_jobs_aggregate [sample_job_a, sample_job_a2] ["python"] 10).map
      AggJob.url).Nodup :=
  claim8 [sample_job_a, sample_job_a2] ["python"] 10

/-- A dict insertion step never yields an empty dict. -/
theorem insert_by_url_ne_nil (acc : List AggJob) (j : AggJob) :
    insert_by_url acc j ≠ [] := by
  rw [insert_by_url]
  by_cases h : (acc.any fun a => a.url == j.url) = true
  · rw [if_pos h]
    intro hmap
    rcases List.any_eq_true.mp h with ⟨a, ha, _⟩
    rw [List.map_eq_nil_iff] at hmap
    rw [hmap] at ha
    exact List.not_mem_nil a ha
  · rw [if_neg h]
    simp

/-- Deduplicating a non-empty collection leaves it non-empty. -/
theorem dedup_by_url_ne_nil (x : AggJob) (xs : List AggJob) :
    dedup_by_url (x :: xs) ≠ [] := by
  rw [dedup_by_url]
  suffices h : ∀ (l acc : List AggJob), acc ≠ [] → l.foldl insert_by_url acc ≠ [] by
    rw [List.foldl_cons]
    exact h xs (insert_by_url [] x) (insert_by_url_ne_nil [] x)
  intro l
  induction l with
  | nil =>
    intro acc h
    simpa using h
  | cons y ys ih =>
    intro acc h
    rw [List.foldl_cons]
    exact ih _ (insert_by_url_ne_nil acc y)

/-- C9 amended: when nothing is collected (all providers unconfigured,
failed, or empty) the aggregator returns the three synthetic postings; and
for max_results at least 1 the result is never empty.  (The claim as stated
fails only for max_results = 0, where a non-empty collection is truncated
to nothing.) -/
theorem claim9_amended (collected : List AggJob) (keywords : List String)
    (max_results : ℕ) :
    (collected = [] →
      search_jobs_aggregate collected keywords max_results = mock_jobs keywords ∧
      (mock_jobs keywords).length = 3) ∧
    (1 ≤ max_results → search_jobs_aggregate collected keywords max_results ≠ []) := by
  constructor
  · intro hcol
    rw [hcol]
    constructor
    · rfl
    · simp [mock_jobs]
  · intro hm
    rcases collected with _ | ⟨x, xs⟩
    · simp only [search_jobs_aggregate]
      rw [show dedup_by_url [] = [] from rfl]
      rw [show insertionSort days_le [] = [] from rfl]
      rw [if_pos (show ([] : List AggJob).isEmpty = true from rfl)]
      simp [mock_jobs]
    · have hded := dedup_by_url_ne_nil x xs
      have hsort : insertionSort days_le (dedup_by_url (x :: xs)) ≠ [] := by
        intro hnil
        apply hded
        have hperm := insertionSort_perm days_le (dedup_by_url (x :: xs))
        rw [hnil] at hperm
        exact (hperm.symm.eq_nil)
      simp only [search_jobs_aggregate]
      rw [if_neg (by
        intro hemp
        exact hsort (List.isEmpty_iff.mp hemp))]
      rcases List.exists_cons_of_ne_nil hsort with ⟨z, zs, hz⟩
      rw [hz]
      rcases max_results with _ | m
      · omega
      · rw [List.take_succ_cons]
        exact List.cons_ne_nil z _

/-- C9 counterexample: with one collected posting and max_results = 0 the
truncation returns an empty list, so search_jobs can return an empty list. -/
theorem claim9_counterexample :
    search_jobs_aggregate [sample_job_a] ["python"] 0 = [] := by decide

/-- C9 witness: with nothing collected the synthetic fallback is returned
and the result is non-empty. -/
theorem claim9_witness :
    search_jobs_aggregate [] ["python"] 5 = mock_jobs ["python"] ∧
    search_jobs_aggregate [] ["python"] 5 ≠ [] :=
  ⟨((claim9_amended [] ["python"] 5).1 rfl).1,
   (claim9_amended [] ["python"] 5).2 (by norm_num)⟩
